import Mathlib

/-!
Verification of the plugin registry and dispatch core of the valor runtime.

The embedding covers:
- the plugin registry state and its operations, from src/src/registry.rs
  (PluginRegistry: match_plugin_handler, register, plugin_list, as_handler);
- the request-id / correlation-id behaviour of the accept loop, from
  src/valor_bin/src/main.rs (accept).

The Plugin descriptor type, the res! response macro, the Runtime::on_msg
dispatch and the path_tree routing structure live outside the two source
files, so they are modelled from the specification where indicated.

Maps guarded by Mutex in the source are modelled as association lists with
insert-or-replace semantics (the semantics of HashMap::insert); the claims
considered here are sequential properties, so the locks themselves add
nothing to the model.
-/

/-- Modelled from the spec: the Plugin Descriptor (spec section 3) carries a
unique `name` and a URL path `prefix` used as routing key. The Rust `Plugin`
type is declared in the library crate root, which is not among the source
files; `pfx` stands for its `prefix` field. -/
structure Plugin where
  name : String
  pfx : String
deriving DecidableEq, Repr

section Maps

variable {α : Type}

/-- Insert-or-replace into an association list keyed by strings: the model of
HashMap::insert (used for the plugins map) and of inserting an already-present
or fresh pattern into the routing structure. -/
def mapInsert (k : String) (v : α) : List (String × α) → List (String × α)
  | [] => [(k, v)]
  | e :: rest => if e.1 = k then (k, v) :: rest else e :: mapInsert k v rest

/-- First-match lookup in an association list: the model of HashMap::get. -/
def mapLookup (k : String) : List (String × α) → Option α
  | [] => none
  | e :: rest => if e.1 = k then some e.2 else mapLookup k rest

end Maps

/-- Modelled from the spec: a prefix matches a path "by path-segment
boundaries, not raw string prefix" (spec section 4.1): the prefix equals the
path, or the path continues past the prefix with a segment separator. -/
def segAncestor (pre path : String) : Bool :=
  pre == path || List.isPrefixOf (pre ++ "/").data path.data

/-- Modelled from the spec: the Routing Table lookup (spec section 4.1)
"returns the most specific (longest) previously inserted prefix that is an
ancestor of the path, together with the associated name". Entries are scanned
recursively, keeping the longest matching prefix (earlier entries win ties,
which cannot arise between distinct prefixes). -/
def bestMatch (path : String) : List (String × String) → Option (String × String)
  | [] => none
  | e :: rest =>
    match bestMatch path rest with
    | none => if segAncestor e.1 path then some e else none
    | some b =>
      if segAncestor e.1 path then
        if b.1.length > e.1.length then some b else some e
      else some b

/-- Modelled from the spec: PathTree::find specialised to the prefix-routing
contract of spec section 4.1; returns the name mapped by the longest matching
prefix. -/
def routesFind (rs : List (String × String)) (path : String) : Option String :=
  (bestMatch path rs).map (fun e => e.2)

/-- The registry state of registry.rs: `plugins` models the
Mutex-protected HashMap from name to (Plugin, handler); `routes` models the
Mutex-protected PathTree from prefix pattern to name. The handler type is
abstract, exactly as the source only stores trait objects. -/
structure PluginRegistry (H : Type) where
  plugins : List (String × Plugin × H)
  routes : List (String × String)
deriving DecidableEq, Repr

/-- PluginRegistry::new: both structures start empty. -/
def PluginRegistry.new (H : Type) : PluginRegistry H :=
  { plugins := [], routes := [] }

variable {H : Type}

/-- PluginRegistry::match_plugin_handler (registry.rs lines 25-31): find the
path in the routing structure, then look the resulting name up in the plugins
map; either failure propagates as none. -/
def match_plugin_handler (st : PluginRegistry H) (path : String) : Option (Plugin × H) :=
  (routesFind st.routes path).bind fun nm => mapLookup nm st.plugins

/-- PluginRegistry::register (registry.rs lines 33-38): insert the prefix
pattern mapped to the name into the routing structure, and the (plugin,
handler) pair under the name into the plugins map. -/
def register (st : PluginRegistry H) (p : Plugin) (h : H) : PluginRegistry H :=
  { plugins := mapInsert p.name (p, h) st.plugins,
    routes := mapInsert p.pfx p.name st.routes }

/-- PluginRegistry::plugin_list (registry.rs lines 40-47): the descriptors
stored in the plugins map. -/
def plugin_list (st : PluginRegistry H) : List Plugin :=
  st.plugins.map (fun e => e.2.1)

/-- A registration sequence applied to the empty registry; used to quantify
over all reachable registry states. -/
def applyRegs (regs : List (Plugin × H)) : PluginRegistry H :=
  regs.foldl (fun st r => register st r.1 r.2) (PluginRegistry.new H)

/-- The HTTP methods distinguished by as_handler; Get and Post are handled,
every other method falls through to the catch-all arm. -/
inductive Method
  | get
  | post
  | put
  | delete
  | head
  | options
  | patch
deriving DecidableEq, Repr

/-- The status codes used by registry.rs. -/
inductive StatusCode
  | ok
  | created
  | badRequest
  | methodNotAllowed
  | unprocessableEntity
  | internalServerError
deriving DecidableEq, Repr

/-- Modelled from the spec: the shape produced by the res! macro (declared
outside the given source files): a status, an optional content type and a
body. -/
structure Response where
  status : StatusCode
  contentType : Option String
  body : String
deriving DecidableEq, Repr

/-- Modelled from the spec: JSON serialization of one descriptor, with the
`name` and `prefix` fields of the wire format (spec section 6). -/
def serializePlugin (p : Plugin) : String :=
  "\x7b\"name\":\"" ++ p.name ++ "\",\"prefix\":\"" ++ p.pfx ++ "\"\x7d"

/-- Modelled from the spec: serde_json serialization of the descriptor list
as a JSON array. -/
def serializePlugins (ps : List Plugin) : String :=
  "[" ++ String.intercalate "," (ps.map serializePlugin) ++ "]"

/-- PluginRegistry::as_handler (registry.rs lines 49-82), as a function of the
request method and of the outcome of parsing the request body as a Plugin
(req.body_json, evaluated only on Post). The loader is a function from a
descriptor to either a handler or an error. It returns the new registry state
together with the response; every arm except a successful Post load leaves the
state untouched. -/
def as_handler (st : PluginRegistry H) (loader : Plugin → Except String H)
    (method : Method) (body : Except String Plugin) : PluginRegistry H × Response :=
  match method with
  | .get =>
    (st, { status := .ok, contentType := some "application/json",
           body := serializePlugins (plugin_list st) })
  | .post =>
    match body with
    | .ok plugin =>
      match loader plugin with
      | .ok handler =>
        (register st plugin handler,
         { status := .created, contentType := none, body := "" })
      | .error _ =>
        (st, { status := .unprocessableEntity, contentType := none,
               body := "Can\x27t load plugin" })
    | .error e => (st, { status := .badRequest, contentType := none, body := e })
  | _ => (st, { status := .methodNotAllowed, contentType := none, body := "" })

/- Dispatch / correlation model (src/valor_bin/src/main.rs). -/

/-- A parsed HTTP request, reduced to the header list that the correlation
logic inspects. -/
structure HttpRequest where
  headers : List (String × String)
deriving DecidableEq, Repr

/-- A response, reduced to the header list that the access-log line reads. -/
structure HttpResponse where
  headers : List (String × String)
deriving DecidableEq, Repr

/-- The correlation request-header key of main.rs. -/
def REQ_ID_HEADER : String := "x-request-id"

/-- The response-header key read for the access-log line in main.rs. -/
def CORRELATION_HEADER : String := "x-correlation-id"

def headerGet (hs : List (String × String)) (k : String) : Option String :=
  mapLookup k hs

def insertHeader (k v : String) (hs : List (String × String)) : List (String × String) :=
  mapInsert k v hs

/-- From accept (main.rs lines 76-79): if the request carries no x-request-id
header, attach a freshly generated identifier; otherwise leave the request
untouched. -/
def attachRequestId (freshId : String) (req : HttpRequest) : HttpRequest :=
  if (headerGet req.headers REQ_ID_HEADER).isNone then
    { req with headers := insertHeader REQ_ID_HEADER freshId req.headers }
  else req

/-- Modelled from the spec: Runtime::on_msg is declared in the library crate,
not among the given source files. Per spec section 6, the correlation
identifier is "propagated from request to response/log line if a downstream
component sets a distinct correlation id header; otherwise the generated
request id is used": when the handler response already carries
x-correlation-id it is kept, otherwise the request's x-request-id is copied
into it. -/
def onMsgCorrelation (req : HttpRequest) (raw : HttpResponse) : HttpResponse :=
  match headerGet raw.headers CORRELATION_HEADER with
  | some _ => raw
  | none =>
    match headerGet req.headers REQ_ID_HEADER with
    | some id => { raw with headers := insertHeader CORRELATION_HEADER id raw.headers }
    | none => raw

/-- From accept (main.rs lines 86-89): the identifier written to the access-log
line is the response's x-correlation-id header, or a dash placeholder. -/
def logId (res : HttpResponse) : String :=
  (headerGet res.headers CORRELATION_HEADER).getD "-"

/-- The per-request pipeline of accept: attach a request id if absent, run the
handler on the resulting request, post-process correlation headers. -/
def dispatch (freshId : String) (req : HttpRequest)
    (handler : HttpRequest → HttpResponse) : HttpResponse :=
  let req' := attachRequestId freshId req
  onMsgCorrelation req' (handler req')

/-! Association-list lemmas. -/

section MapLemmas

variable {α : Type}

theorem mapLookup_mapInsert_self (k : String) (v : α) (m : List (String × α)) :
    mapLookup k (mapInsert k v m) = some v := by
  induction m with
  | nil => simp [mapInsert, mapLookup]
  | cons e rest ih =>
    by_cases h : e.1 = k
    · simp [mapInsert, mapLookup, h]
    · simp [mapInsert, mapLookup, h, ih]

theorem mapLookup_mapInsert_ne (k k' : String) (v : α) (m : List (String × α))
    (h : k' ≠ k) : mapLookup k' (mapInsert k v m) = mapLookup k' m := by
  have hkk : ¬ k = k' := fun hh => h hh.symm
  induction m with
  | nil => simp [mapInsert, mapLookup, hkk]
  | cons e rest ih =>
    by_cases he : e.1 = k
    · have hne : ¬ e.1 = k' := by rw [he]; exact hkk
      simp [mapInsert, mapLookup, he, hne, hkk]
    · by_cases he' : e.1 = k'
      · simp [mapInsert, mapLookup, he, he', h]
      · simp [mapInsert, mapLookup, he, he', ih]

theorem mapLookup_isSome_mapInsert (k k' : String) (v : α) (m : List (String × α))
    (h : (mapLookup k' m).isSome = true) :
    (mapLookup k' (mapInsert k v m)).isSome = true := by
  by_cases hk : k' = k
  · subst hk; simp [mapLookup_mapInsert_self]
  · rw [mapLookup_mapInsert_ne k k' v m hk]; exact h

theorem mem_mapInsert (k : String) (v : α) (m : List (String × α)) (e : String × α)
    (h : e ∈ mapInsert k v m) : e = (k, v) ∨ e ∈ m := by
  induction m with
  | nil => simpa [mapInsert] using h
  | cons f rest ih =>
    by_cases hf : f.1 = k
    · simp only [mapInsert, if_pos hf] at h
      rcases List.mem_cons.mp h with h | h
      · exact Or.inl h
      · exact Or.inr (List.mem_cons_of_mem _ h)
    · simp only [mapInsert, if_neg hf] at h
      rcases List.mem_cons.mp h with h | h
      · exact Or.inr (h ▸ List.mem_cons_self _ _)
      · rcases ih h with h | h
        · exact Or.inl h
        · exact Or.inr (List.mem_cons_of_mem _ h)

theorem mem_mapInsert_self (k : String) (v : α) (m : List (String × α)) :
    (k, v) ∈ mapInsert k v m := by
  induction m with
  | nil => simp [mapInsert]
  | cons f rest ih =>
    by_cases hf : f.1 = k
    · simp [mapInsert, hf]
    · simp only [mapInsert, if_neg hf]
      exact List.mem_cons_of_mem _ ih

theorem mapLookup_mem (k : String) (v : α) (m : List (String × α))
    (h : mapLookup k m = some v) : (k, v) ∈ m := by
  induction m with
  | nil => simp [mapLookup] at h
  | cons f rest ih =>
    obtain ⟨a, b⟩ := f
    by_cases hf : a = k
    · subst hf
      simp only [mapLookup, if_pos rfl] at h
      obtain rfl : b = v := Option.some_injective _ h
      exact List.mem_cons_self _ _
    · simp only [mapLookup, if_neg hf] at h
      exact List.mem_cons_of_mem _ (ih h)

theorem mapInsert_of_not_mem (k : String) (v : α) (m : List (String × α))
    (h : k ∉ m.map Prod.fst) : mapInsert k v m = m ++ [(k, v)] := by
  induction m with
  | nil => simp [mapInsert]
  | cons f rest ih =>
    simp only [List.map_cons, List.mem_cons] at h
    push_neg at h
    simp [mapInsert, Ne.symm h.1, ih h.2]

end MapLemmas

/-! Lemmas about the longest-matching-prefix scan. -/

theorem bestMatch_none (path : String) (rs : List (String × String))
    (h : bestMatch path rs = none) :
    ∀ e ∈ rs, segAncestor e.1 path = false := by
  induction rs with
  | nil => simp
  | cons f rest ih =>
    intro e he
    cases hb : bestMatch path rest with
    | none =>
      simp only [bestMatch, hb] at h
      rcases List.mem_cons.mp he with rfl | he
      · by_cases ha : segAncestor e.1 path
        · simp [ha] at h
        · simpa using ha
      · exact ih hb e he
    | some b =>
      simp only [bestMatch, hb] at h
      by_cases ha : segAncestor f.1 path <;> simp [ha] at h
      split at h <;> simp_all

theorem bestMatch_mem (path : String) (rs : List (String × String))
    (e : String × String) (h : bestMatch path rs = some e) :
    e ∈ rs ∧ segAncestor e.1 path = true := by
  induction rs generalizing e with
  | nil => simp [bestMatch] at h
  | cons f rest ih =>
    cases hb : bestMatch path rest with
    | none =>
      simp only [bestMatch, hb] at h
      by_cases ha : segAncestor f.1 path
      · simp only [if_pos ha] at h
        obtain rfl := Option.some_injective _ h
        exact ⟨List.mem_cons_self _ _, ha⟩
      · simp [ha] at h
    | some b =>
      simp only [bestMatch, hb] at h
      by_cases ha : segAncestor f.1 path
      · simp only [if_pos ha] at h
        split at h
        · obtain rfl := Option.some_injective _ h
          exact ⟨List.mem_cons_of_mem _ (ih b hb).1, (ih b hb).2⟩
        · obtain rfl := Option.some_injective _ h
          exact ⟨List.mem_cons_self _ _, ha⟩
      · simp only [if_neg ha] at h
        obtain rfl := Option.some_injective _ h
        exact ⟨List.mem_cons_of_mem _ (ih b hb).1, (ih b hb).2⟩

theorem bestMatch_maximal (path : String) (rs : List (String × String))
    (e : String × String) (h : bestMatch path rs = some e) :
    ∀ f ∈ rs, segAncestor f.1 path = true → f.1.length ≤ e.1.length := by
  induction rs generalizing e with
  | nil => simp [bestMatch] at h
  | cons g rest ih =>
    intro f hf haf
    cases hb : bestMatch path rest with
    | none =>
      simp only [bestMatch, hb] at h
      by_cases ha : segAncestor g.1 path
      · simp only [if_pos ha] at h
        obtain rfl := Option.some_injective _ h
        rcases List.mem_cons.mp hf with rfl | hf
        · exact Nat.le_refl _
        · exact absurd haf (by simp [bestMatch_none path rest hb f hf])
      · simp [ha] at h
    | some b =>
      simp only [bestMatch, hb] at h
      by_cases ha : segAncestor g.1 path
      · simp only [if_pos ha] at h
        rcases List.mem_cons.mp hf with rfl | hf
        · split at h
          · obtain rfl := Option.some_injective _ h
            next hl => exact Nat.le_of_lt hl
          · obtain rfl := Option.some_injective _ h
            exact Nat.le_refl _
        · split at h
          · obtain rfl := Option.some_injective _ h
            exact ih b hb f hf haf
          · obtain rfl := Option.some_injective _ h
            next hl =>
              exact Nat.le_trans (ih b hb f hf haf) (Nat.le_of_not_lt hl)
      · simp only [if_neg ha] at h
        obtain rfl := Option.some_injective _ h
        rcases List.mem_cons.mp hf with rfl | hf
        · exact absurd haf (by simp [ha])
        · exact ih b hb f hf haf

theorem bestMatch_isSome (path : String) (rs : List (String × String))
    (e : String × String) (he : e ∈ rs) (ha : segAncestor e.1 path = true) :
    (bestMatch path rs).isSome = true := by
  cases h : bestMatch path rs with
  | none => exact absurd ha (by simp [bestMatch_none path rs h e he])
  | some b => rfl

/-! Invariants of states reachable by registration sequences. -/

theorem foldl_register_inv (P : PluginRegistry H → Prop)
    (hstep : ∀ st p h, P st → P (register st p h)) :
    ∀ (regs : List (Plugin × H)) (st : PluginRegistry H), P st →
      P (regs.foldl (fun st r => register st r.1 r.2) st) := by
  intro regs
  induction regs with
  | nil => intro st h; simpa using h
  | cons r rest ih =>
    intro st h
    simpa using ih (register st r.1 r.2) (hstep st r.1 r.2 h)

theorem applyRegs_inv (P : PluginRegistry H → Prop)
    (h0 : P (PluginRegistry.new H))
    (hstep : ∀ st p h, P st → P (register st p h))
    (regs : List (Plugin × H)) : P (applyRegs regs) :=
  foldl_register_inv P hstep regs (PluginRegistry.new H) h0

/-- Every routing entry's name has a live entry in the plugins map, in every
reachable state (the atomicity invariant of spec section 3). -/
theorem routes_names_live (regs : List (Plugin × H)) :
    ∀ e ∈ (applyRegs regs).routes,
      (mapLookup e.2 (applyRegs regs).plugins).isSome = true := by
  refine applyRegs_inv
    (fun st => ∀ e ∈ st.routes, (mapLookup e.2 st.plugins).isSome = true) ?_ ?_ regs
  · simp [PluginRegistry.new]
  · intro st p h hinv e he
    simp only [register] at he ⊢
    rcases mem_mapInsert _ _ _ _ he with rfl | he
    · simp [mapLookup_mapInsert_self]
    · exact mapLookup_isSome_mapInsert _ _ _ _ (hinv e he)

/-- In every reachable state, each plugins-map entry is keyed by the stored
descriptor's name (register always inserts under plugin.name()). -/
theorem plugins_key_is_name (regs : List (Plugin × H)) :
    ∀ e ∈ (applyRegs regs).plugins, (e.2.1).name = e.1 := by
  refine applyRegs_inv (fun st => ∀ e ∈ st.plugins, (e.2.1).name = e.1) ?_ ?_ regs
  · simp [PluginRegistry.new]
  · intro st p h hinv e he
    simp only [register] at he
    rcases mem_mapInsert _ _ _ _ he with rfl | he
    · rfl
    · exact hinv e he

/-- Every routing entry in a reachable state comes from one of the
registrations. -/
theorem routes_mem_applyRegs (regs : List (Plugin × H)) :
    ∀ e ∈ (applyRegs regs).routes, ∃ r ∈ regs, e = ((r.1).pfx, (r.1).name) := by
  suffices hgen : ∀ (l : List (Plugin × H)) (st : PluginRegistry H),
      ∀ e ∈ (l.foldl (fun st r => register st r.1 r.2) st).routes,
        e ∈ st.routes ∨ ∃ r ∈ l, e = ((r.1).pfx, (r.1).name) by
    intro e he
    rcases hgen regs (PluginRegistry.new H) e he with h | h
    · simp [PluginRegistry.new] at h
    · exact h
  intro l
  induction l with
  | nil => intro st e he; exact Or.inl (by simpa using he)
  | cons r rest ih =>
    intro st e he
    simp only [List.foldl_cons] at he
    rcases ih (register st r.1 r.2) e he with h | h
    · simp only [register] at h
      rcases mem_mapInsert _ _ _ _ h with rfl | h
      · exact Or.inr ⟨r, List.mem_cons_self _ _, rfl⟩
      · exact Or.inl h
    · rcases h with ⟨r', hr', rfl⟩
      exact Or.inr ⟨r', List.mem_cons_of_mem _ hr', rfl⟩

/-- With pairwise-distinct names, the plugins map after a registration
sequence is exactly the sequence itself, keyed by name, in order. -/
theorem plugins_foldl_append :
    ∀ (regs : List (Plugin × H)) (st : PluginRegistry H),
      (∀ r ∈ regs, (r.1).name ∉ st.plugins.map Prod.fst) →
      (regs.map fun r => (r.1).name).Nodup →
      (regs.foldl (fun st r => register st r.1 r.2) st).plugins
        = st.plugins ++ regs.map (fun r => ((r.1).name, r)) := by
  intro regs
  induction regs with
  | nil => intro st _ _; simp
  | cons r rest ih =>
    intro st hfresh hnodup
    simp only [List.map_cons, List.nodup_cons] at hnodup
    simp only [List.foldl_cons]
    have hst : (register st r.1 r.2).plugins = st.plugins ++ [((r.1).name, r)] := by
      simp only [register]
      exact mapInsert_of_not_mem _ _ _ (hfresh r (List.mem_cons_self _ _))
    have hroutes_irrelevant : (register st r.1 r.2).plugins.map Prod.fst
        = st.plugins.map Prod.fst ++ [(r.1).name] := by
      rw [hst]; simp
    rw [ih (register st r.1 r.2) ?_ hnodup.2, hst, List.append_assoc]
    · simp
    · intro r' hr'
      rw [hroutes_irrelevant]
      simp only [List.mem_append, List.mem_singleton]
      push_neg
      refine ⟨hfresh r' (List.mem_cons_of_mem _ hr'), ?_⟩
      intro hcontra
      exact hnodup.1 (hcontra ▸ List.mem_map_of_mem (fun r => (r.1).name) hr')

/-- With pairwise-distinct prefixes, the routing structure after a
registration sequence is exactly the sequence of (prefix, name) pairs, in
order. -/
theorem routes_foldl_append :
    ∀ (regs : List (Plugin × H)) (st : PluginRegistry H),
      (∀ r ∈ regs, (r.1).pfx ∉ st.routes.map Prod.fst) →
      (regs.map fun r => (r.1).pfx).Nodup →
      (regs.foldl (fun st r => register st r.1 r.2) st).routes
        = st.routes ++ regs.map (fun r => ((r.1).pfx, (r.1).name)) := by
  intro regs
  induction regs with
  | nil => intro st _ _; simp
  | cons r rest ih =>
    intro st hfresh hnodup
    simp only [List.map_cons, List.nodup_cons] at hnodup
    simp only [List.foldl_cons]
    have hst : (register st r.1 r.2).routes = st.routes ++ [((r.1).pfx, (r.1).name)] := by
      simp only [register]
      exact mapInsert_of_not_mem _ _ _ (hfresh r (List.mem_cons_self _ _))
    have hkeys : (register st r.1 r.2).routes.map Prod.fst
        = st.routes.map Prod.fst ++ [(r.1).pfx] := by
      rw [hst]; simp
    rw [ih (register st r.1 r.2) ?_ hnodup.2, hst, List.append_assoc]
    · simp
    · intro r' hr'
      rw [hkeys]
      simp only [List.mem_append, List.mem_singleton]
      push_neg
      refine ⟨hfresh r' (List.mem_cons_of_mem _ hr'), ?_⟩
      intro hcontra
      exact hnodup.1 (hcontra ▸ List.mem_map_of_mem (fun r => (r.1).pfx) hr')

/-- Looking a registration's name up in the name-keyed image of a
distinct-name sequence yields exactly that registration. -/
theorem mapLookup_regs (regs : List (Plugin × H))
    (hN : (regs.map fun r => (r.1).name).Nodup)
    (r : Plugin × H) (hr : r ∈ regs) :
    mapLookup (r.1).name (regs.map (fun r => ((r.1).name, r))) = some r := by
  induction regs with
  | nil => simp at hr
  | cons a rest ih =>
    simp only [List.map_cons, List.nodup_cons] at hN
    rcases List.mem_cons.mp hr with rfl | hr
    · simp [mapLookup]
    · have hne : ¬ (a.1).name = (r.1).name := by
        intro hcontra
        exact hN.1 (hcontra ▸ List.mem_map_of_mem (fun r => (r.1).name) hr)
      simp only [List.map_cons, mapLookup, if_neg hne]
      exact ih hN.2 hr

/-! Claim theorems. -/

/-- Claim C2: for every reachable state and every pair of registrations that
use the same name, the second register call fully replaces the first's
descriptor and handler: any subsequent match_plugin_handler lookup that
resolves to that name returns exactly the second registration's
(Descriptor, Handler) pair, never one mixing fields from the old and new
registrations. -/
theorem claim_C2 (regs : List (Plugin × H)) (p1 p2 : Plugin) (h1 h2 : H)
    (_hname : p1.name = p2.name) (path : String) (d : Plugin) (hh : H)
    (hm : match_plugin_handler
        (register (register (applyRegs regs) p1 h1) p2 h2) path = some (d, hh))
    (hd : d.name = p2.name) :
    d = p2 ∧ hh = h2 := by
  have hstate : register (register (applyRegs regs) p1 h1) p2 h2
      = applyRegs (regs ++ [(p1, h1), (p2, h2)]) := by
    simp [applyRegs, List.foldl_append]
  rw [hstate] at hm
  unfold match_plugin_handler at hm
  rw [Option.bind_eq_some] at hm
  obtain ⟨nm, hf, hl⟩ := hm
  have hkey : d.name = nm :=
    plugins_key_is_name (regs ++ [(p1, h1), (p2, h2)]) (nm, (d, hh))
      (mapLookup_mem _ _ _ hl)
  have hnm : nm = p2.name := by rw [← hkey, hd]
  have hplug : (applyRegs (regs ++ [(p1, h1), (p2, h2)])).plugins
      = mapInsert p2.name (p2, h2)
          (register (applyRegs regs) p1 h1).plugins := by
    rw [← hstate]; rfl
  rw [hnm, hplug, mapLookup_mapInsert_self] at hl
  obtain heq : (p2, h2) = (d, hh) := Option.some_injective _ hl
  exact ⟨(Prod.mk.injEq _ _ _ _ |>.mp heq).1.symm,
         (Prod.mk.injEq _ _ _ _ |>.mp heq).2.symm⟩

/-- Witness for claim C2 at a concrete re-registration. -/
theorem claim_C2_witness :
    ({ name := "a", pfx := "/old" } : Plugin).name
        = ({ name := "a", pfx := "/new" } : Plugin).name
    ∧ match_plugin_handler
        (register (register (applyRegs ([] : List (Plugin × Nat)))
            { name := "a", pfx := "/old" } 0)
          { name := "a", pfx := "/new" } 1) "/old/x"
        = some ({ name := "a", pfx := "/new" }, 1)
    ∧ ({ name := "a", pfx := "/new" } : Plugin) = { name := "a", pfx := "/new" }
    ∧ (1 : Nat) = 1 := by
  refine ⟨rfl, by decide, ?_⟩
  have h := claim_C2 ([] : List (Plugin × Nat))
    { name := "a", pfx := "/old" } { name := "a", pfx := "/new" } 0 1 rfl
    "/old/x" { name := "a", pfx := "/new" } 1 (by decide) rfl
  exact ⟨h.1, h.2⟩

/-- Claim C3: a POST whose body parses as a Plugin descriptor and whose
loader call succeeds registers the plugin — afterwards both the routing
entry for its prefix and the plugins-map entry for its name are visible —
and answers 201 Created. -/
theorem claim_C3 (st : PluginRegistry H) (loader : Plugin → Except String H)
    (p : Plugin) (h : H) (hl : loader p = .ok h) :
    as_handler st loader .post (.ok p)
      = (register st p h, { status := .created, contentType := none, body := "" })
    ∧ mapLookup p.name (register st p h).plugins = some (p, h)
    ∧ (p.pfx, p.name) ∈ (register st p h).routes := by
  refine ⟨by simp [as_handler, hl], ?_, ?_⟩
  · simp [register, mapLookup_mapInsert_self]
  · simp only [register]
    exact mem_mapInsert_self _ _ _

/-- Witness for claim C3 at a concrete successful load. -/
theorem claim_C3_witness :
    (fun _ : Plugin => (Except.ok 7 : Except String Nat)) { name := "a", pfx := "/a" }
        = .ok 7
    ∧ as_handler (PluginRegistry.new Nat) (fun _ => Except.ok 7) .post
        (.ok { name := "a", pfx := "/a" })
      = (register (PluginRegistry.new Nat) { name := "a", pfx := "/a" } 7,
         { status := .created, contentType := none, body := "" }) :=
  ⟨rfl, (claim_C3 (PluginRegistry.new Nat) (fun _ => Except.ok 7)
      { name := "a", pfx := "/a" } 7 rfl).1⟩

/-- Claim C4: a POST whose body fails to deserialize as a Plugin descriptor
answers 400 Bad Request carrying the parse error as body, and leaves the
registry state (routing table and plugins map) unchanged. -/
theorem claim_C4 (st : PluginRegistry H) (loader : Plugin → Except String H)
    (e : String) :
    as_handler st loader .post (.error e)
      = (st, { status := .badRequest, contentType := none, body := e }) := rfl

/-- Claim C5: a POST whose body parses but whose loader call fails answers
422 Unprocessable Entity with the fixed body "Can't load plugin" — whatever
the loader's error detail was — and leaves the registry state unchanged. -/
theorem claim_C5 (st : PluginRegistry H) (loader : Plugin → Except String H)
    (p : Plugin) (e : String) (hl : loader p = .error e) :
    as_handler st loader .post (.ok p)
      = (st, { status := .unprocessableEntity, contentType := none,
               body := "Can\x27t load plugin" }) := by
  simp [as_handler, hl]

/-- Witness for claim C5 at a concrete failing load. -/
theorem claim_C5_witness :
    (fun _ : Plugin => (Except.error "boom" : Except String Nat))
        { name := "a", pfx := "/a" } = .error "boom"
    ∧ as_handler (PluginRegistry.new Nat) (fun _ => Except.error "boom") .post
        (.ok { name := "a", pfx := "/a" })
      = (PluginRegistry.new Nat,
         { status := .unprocessableEntity, contentType := none,
           body := "Can\x27t load plugin" }) :=
  ⟨rfl, claim_C5 (PluginRegistry.new Nat) (fun _ => Except.error "boom")
      { name := "a", pfx := "/a" } "boom" rfl⟩

/-- Claim C6: a GET after a registration sequence with distinct names answers
200 with content-type "application/json" and the serialization of the plugin
list, leaves the state unchanged, and the listed descriptors are exactly the
registered ones with their original name and prefix (as a permutation, order
unspecified). -/
theorem claim_C6 (regs : List (Plugin × H)) (loader : Plugin → Except String H)
    (body : Except String Plugin)
    (hN : (regs.map fun r => (r.1).name).Nodup) :
    as_handler (applyRegs regs) loader .get body
      = (applyRegs regs,
         { status := .ok, contentType := some "application/json",
           body := serializePlugins (regs.map fun r => r.1) })
    ∧ (plugin_list (applyRegs regs)).Perm (regs.map fun r => r.1) := by
  have hpl : plugin_list (applyRegs regs) = regs.map fun r => r.1 := by
    unfold plugin_list applyRegs
    rw [plugins_foldl_append regs (PluginRegistry.new H)
        (by simp [PluginRegistry.new]) hN]
    simp [PluginRegistry.new, Function.comp]
  exact ⟨by simp [as_handler, hpl], by rw [hpl]⟩

/-- Witness for claim C6 after two distinct registrations. -/
theorem claim_C6_witness :
    (([({ name := "a", pfx := "/a" }, (0 : Nat)),
       ({ name := "b", pfx := "/b" }, 1)] :
        List (Plugin × Nat)).map fun r => (r.1).name).Nodup
    ∧ as_handler
        (applyRegs [({ name := "a", pfx := "/a" }, (0 : Nat)),
                    ({ name := "b", pfx := "/b" }, 1)])
        (fun _ => Except.error "") .get (.error "")
      = (applyRegs [({ name := "a", pfx := "/a" }, (0 : Nat)),
                    ({ name := "b", pfx := "/b" }, 1)],
         { status := .ok, contentType := some "application/json",
           body := serializePlugins
             [{ name := "a", pfx := "/a" }, { name := "b", pfx := "/b" }] }) := by
  constructor
  · decide
  · exact (claim_C6 [({ name := "a", pfx := "/a" }, (0 : Nat)),
        ({ name := "b", pfx := "/b" }, 1)]
      (fun _ => Except.error "") (.error "") (by decide)).1

/-- Claim C7: any request whose method is neither GET nor POST answers
405 Method Not Allowed and leaves the registry state unchanged. -/
theorem claim_C7 (st : PluginRegistry H) (loader : Plugin → Except String H)
    (m : Method) (body : Except String Plugin)
    (hg : m ≠ .get) (hp : m ≠ .post) :
    as_handler st loader m body
      = (st, { status := .methodNotAllowed, contentType := none, body := "" }) := by
  cases m <;> simp_all [as_handler]

/-- Witness for claim C7 at the PUT method. -/
theorem claim_C7_witness :
    (Method.put ≠ Method.get)
    ∧ (Method.put ≠ Method.post)
    ∧ as_handler (PluginRegistry.new Nat) (fun _ => Except.error "") .put (.error "")
      = (PluginRegistry.new Nat,
         { status := .methodNotAllowed, contentType := none, body := "" }) :=
  ⟨by decide, by decide,
   claim_C7 (PluginRegistry.new Nat) (fun _ => Except.error "") .put (.error "")
     (by decide) (by decide)⟩

/-- Claim C8: match_plugin_handler returns none both when the routing
structure has no match for the path and when the matched name has no entry in
the plugins map; the defensive second case is an empty result, produced by
the same total function, not a fault. -/
theorem claim_C8 (st : PluginRegistry H) (path : String) :
    (routesFind st.routes path = none → match_plugin_handler st path = none)
    ∧ ∀ nm, routesFind st.routes path = some nm →
        mapLookup nm st.plugins = none → match_plugin_handler st path = none := by
  constructor
  · intro h
    simp [match_plugin_handler, h]
  · intro nm h1 h2
    simp [match_plugin_handler, h1, h2]

/-- Witness for claim C8 on a state whose routing entry has no live
handler. -/
theorem claim_C8_witness :
    routesFind
        ({ plugins := [], routes := [("/x", "ghost")] } : PluginRegistry Nat).routes
        "/x" = some "ghost"
    ∧ match_plugin_handler
        ({ plugins := [], routes := [("/x", "ghost")] } : PluginRegistry Nat)
        "/x" = none :=
  ⟨by decide,
   (claim_C8 ({ plugins := [], routes := [("/x", "ghost")] } : PluginRegistry Nat)
       "/x").2 "ghost" (by decide) (by decide)⟩

/-- Claim C10: registering an existing name under a different prefix leaves
the old prefix's routing entry in place; a path matching the old prefix still
resolves (through that stale entry's name) and yields the new, replaced
(descriptor, handler) pair. -/
theorem claim_C10 (p1 p2 : Plugin) (h1 h2 : H) (path : String)
    (hname : p1.name = p2.name) (hpfx : p1.pfx ≠ p2.pfx)
    (hanc : segAncestor p1.pfx path = true) :
    match_plugin_handler
        (register (register (PluginRegistry.new H) p1 h1) p2 h2) path
      = some (p2, h2)
    ∧ (p1.pfx, p1.name)
        ∈ (register (register (PluginRegistry.new H) p1 h1) p2 h2).routes := by
  have hr : (register (register (PluginRegistry.new H) p1 h1) p2 h2).routes
      = [(p1.pfx, p1.name), (p2.pfx, p2.name)] := by
    simp [register, PluginRegistry.new, mapInsert, hpfx]
  have hp : (register (register (PluginRegistry.new H) p1 h1) p2 h2).plugins
      = [(p2.name, (p2, h2))] := by
    simp [register, PluginRegistry.new, mapInsert, hname]
  refine ⟨?_, by rw [hr]; exact List.mem_cons_self _ _⟩
  rw [match_plugin_handler, hr, hp]
  by_cases ha2 : segAncestor p2.pfx path
  · by_cases hl : p2.pfx.length > p1.pfx.length
    · simp [routesFind, bestMatch, hanc, ha2, hl, mapLookup]
    · simp [routesFind, bestMatch, hanc, ha2, hl, mapLookup, hname]
  · simp [routesFind, bestMatch, hanc, ha2, mapLookup, hname]

/-- Witness for claim C10 at a concrete re-registration under a new
prefix. -/
theorem claim_C10_witness :
    (({ name := "a", pfx := "/foo" } : Plugin).name
        = ({ name := "a", pfx := "/bar" } : Plugin).name)
    ∧ (({ name := "a", pfx := "/foo" } : Plugin).pfx
        ≠ ({ name := "a", pfx := "/bar" } : Plugin).pfx)
    ∧ segAncestor "/foo" "/foo/x" = true
    ∧ match_plugin_handler
        (register (register (PluginRegistry.new Nat)
            { name := "a", pfx := "/foo" } 0)
          { name := "a", pfx := "/bar" } 1) "/foo/x"
      = some ({ name := "a", pfx := "/bar" }, 1) :=
  ⟨rfl, by decide, by decide,
   (claim_C10 { name := "a", pfx := "/foo" } { name := "a", pfx := "/bar" }
       0 1 "/foo/x" rfl (by decide) (by decide)).1⟩

/-- Claim C9: a request without an x-request-id header reaches the handler
with a freshly generated identifier attached; a request already carrying one
is passed through unchanged; and when the handler's response sets no distinct
correlation-id header, the generated request id is the identifier used in the
access-log line. -/
theorem claim_C9 (fid : String) (req : HttpRequest)
    (handler : HttpRequest → HttpResponse) :
    (headerGet req.headers REQ_ID_HEADER = none →
      headerGet (attachRequestId fid req).headers REQ_ID_HEADER = some fid)
    ∧ (∀ v, headerGet req.headers REQ_ID_HEADER = some v →
        attachRequestId fid req = req)
    ∧ (headerGet req.headers REQ_ID_HEADER = none →
       headerGet (handler (attachRequestId fid req)).headers CORRELATION_HEADER
         = none →
       logId (dispatch fid req handler) = fid) := by
  refine ⟨?_, ?_, ?_⟩
  · intro h
    simp only [headerGet] at h
    simp [attachRequestId, headerGet, insertHeader, h, mapLookup_mapInsert_self]
  · intro v h
    simp [attachRequestId, h]
  · intro h hres
    simp only [headerGet] at h hres
    have hreq' : mapLookup REQ_ID_HEADER (attachRequestId fid req).headers
        = some fid := by
      simp [attachRequestId, headerGet, insertHeader, h, mapLookup_mapInsert_self]
    simp [dispatch, onMsgCorrelation, headerGet, hres, hreq', logId, insertHeader,
      mapLookup_mapInsert_self]

/-- Witness for claim C9 on a header-less request and a handler that sets no
correlation header. -/
theorem claim_C9_witness :
    headerGet (HttpRequest.mk []).headers REQ_ID_HEADER = none
    ∧ headerGet (attachRequestId "id-1" (HttpRequest.mk [])).headers REQ_ID_HEADER
        = some "id-1"
    ∧ logId (dispatch "id-1" (HttpRequest.mk []) (fun _ => HttpResponse.mk []))
        = "id-1" :=
  ⟨rfl,
   (claim_C9 "id-1" (HttpRequest.mk []) (fun _ => HttpResponse.mk [])).1 rfl,
   (claim_C9 "id-1" (HttpRequest.mk []) (fun _ => HttpResponse.mk [])).2.2 rfl rfl⟩

/-- Counterexample to claim C1 as stated: with the distinct-name
registrations ("a", "/foo") and ("b", "/foo/bar"), the path "/foo/bar" is
segment-nested under the registered prefix "/foo", yet match_plugin_handler
does not resolve it to plugin "a" — the longer registered prefix wins. -/
theorem claim_C1_counterexample :
    (([({ name := "a", pfx := "/foo" }, (0 : Nat)),
       ({ name := "b", pfx := "/foo/bar" }, 1)] :
        List (Plugin × Nat)).map fun r => (r.1).name).Nodup
    ∧ segAncestor "/foo" "/foo/bar" = true
    ∧ match_plugin_handler
        (applyRegs [({ name := "a", pfx := "/foo" }, (0 : Nat)),
                    ({ name := "b", pfx := "/foo/bar" }, 1)]) "/foo/bar"
      ≠ some ({ name := "a", pfx := "/foo" }, 0)
    ∧ match_plugin_handler
        (applyRegs [({ name := "a", pfx := "/foo" }, (0 : Nat)),
                    ({ name := "b", pfx := "/foo/bar" }, 1)]) "/foo/bar"
      = some ({ name := "b", pfx := "/foo/bar" }, 1) :=
  ⟨by decide, by decide, by decide, by decide⟩

/-- Claim C1, amended: for every registration sequence with distinct names
and distinct prefixes, (a) a path resolves to the registered plugin whose
prefix is the longest registered segment-ancestor of the path, (b) every path
segment-nested at or under some registered prefix resolves to some plugin,
and (c) a path with no registered segment-ancestor — in particular a sibling
sharing only a raw string prefix, such as "/foobar" against "/foo" — never
resolves. -/
theorem claim_C1_amended (regs : List (Plugin × H))
    (hN : (regs.map fun r => (r.1).name).Nodup)
    (hP : (regs.map fun r => (r.1).pfx).Nodup) :
    (∀ r ∈ regs, ∀ path : String, segAncestor (r.1).pfx path = true →
      (∀ r' ∈ regs, segAncestor (r'.1).pfx path = true →
        r' = r ∨ ((r'.1).pfx).length < ((r.1).pfx).length) →
      match_plugin_handler (applyRegs regs) path = some r)
    ∧ (∀ path : String, (∃ r ∈ regs, segAncestor (r.1).pfx path = true) →
        (match_plugin_handler (applyRegs regs) path).isSome = true)
    ∧ (∀ path : String, (∀ r ∈ regs, segAncestor (r.1).pfx path = false) →
        match_plugin_handler (applyRegs regs) path = none) := by
  have routesEq : (applyRegs regs).routes
      = regs.map (fun r => ((r.1).pfx, (r.1).name)) := by
    unfold applyRegs
    rw [routes_foldl_append regs (PluginRegistry.new H)
        (by simp [PluginRegistry.new]) hP]
    simp [PluginRegistry.new]
  have pluginsEq : (applyRegs regs).plugins
      = regs.map (fun r => ((r.1).name, r)) := by
    unfold applyRegs
    rw [plugins_foldl_append regs (PluginRegistry.new H)
        (by simp [PluginRegistry.new]) hN]
    simp [PluginRegistry.new]
  refine ⟨?_, ?_, ?_⟩
  · intro r hr path hanc hmax
    have hmem : ((r.1).pfx, (r.1).name) ∈ (applyRegs regs).routes := by
      rw [routesEq]
      exact List.mem_map_of_mem _ hr
    have hsome := bestMatch_isSome path (applyRegs regs).routes _ hmem hanc
    cases hb : bestMatch path (applyRegs regs).routes with
    | none => rw [hb] at hsome; simp at hsome
    | some e =>
      obtain ⟨heMem, heAnc⟩ := bestMatch_mem path _ e hb
      rw [routesEq] at heMem
      obtain ⟨r', hr', heEq⟩ := List.mem_map.mp heMem
      have hle : ((r.1).pfx).length ≤ e.1.length :=
        bestMatch_maximal path _ e hb _ hmem hanc
      have he1 : e.1 = (r'.1).pfx := by rw [← heEq]
      have hr'anc : segAncestor (r'.1).pfx path = true := by
        rw [← he1]; exact heAnc
      rcases hmax r' hr' hr'anc with rfl | hlt
      · have hroute : routesFind (applyRegs regs).routes path = some ((r'.1).name) := by
          simp [routesFind, hb, ← heEq]
        rw [match_plugin_handler, hroute, Option.some_bind, pluginsEq,
          mapLookup_regs regs hN r' hr']
      · exfalso
        rw [he1] at hle
        exact Nat.lt_irrefl _ (Nat.lt_of_lt_of_le hlt hle)
  · rintro path ⟨r, hr, hanc⟩
    have hmem : ((r.1).pfx, (r.1).name) ∈ (applyRegs regs).routes := by
      rw [routesEq]
      exact List.mem_map_of_mem _ hr
    have hsome := bestMatch_isSome path (applyRegs regs).routes _ hmem hanc
    cases hb : bestMatch path (applyRegs regs).routes with
    | none => rw [hb] at hsome; simp at hsome
    | some e =>
      obtain ⟨heMem, _⟩ := bestMatch_mem path _ e hb
      obtain ⟨v, hv⟩ := Option.isSome_iff_exists.mp
        (routes_names_live regs e heMem)
      simp [match_plugin_handler, routesFind, hb, hv]
  · intro path hnone
    cases hb : bestMatch path (applyRegs regs).routes with
    | none => simp [match_plugin_handler, routesFind, hb]
    | some e =>
      exfalso
      obtain ⟨heMem, heAnc⟩ := bestMatch_mem path _ e hb
      obtain ⟨r', hr', heEq⟩ := routes_mem_applyRegs regs e heMem
      rw [heEq] at heAnc
      rw [hnone r' hr'] at heAnc
      exact Bool.false_ne_true heAnc

/-- Witness for the amended claim C1: with only ("a", "/foo") registered,
"/foo/bar" resolves to plugin "a" and "/foobar" does not resolve. -/
theorem claim_C1_amended_witness :
    match_plugin_handler
        (applyRegs [({ name := "a", pfx := "/foo" }, (0 : Nat))]) "/foo/bar"
      = some ({ name := "a", pfx := "/foo" }, 0)
    ∧ match_plugin_handler
        (applyRegs [({ name := "a", pfx := "/foo" }, (0 : Nat))]) "/foobar"
      = none :=
  ⟨(claim_C1_amended [({ name := "a", pfx := "/foo" }, (0 : Nat))]
      (by decide) (by decide)).1
      ({ name := "a", pfx := "/foo" }, 0) (by decide) "/foo/bar"
      (by decide) (by decide),
   (claim_C1_amended [({ name := "a", pfx := "/foo" }, (0 : Nat))]
      (by decide) (by decide)).2.2 "/foobar" (by decide)⟩
